import Mathlib

/-
Verification development for the infopark job scraper (src/scrap.py).

Text is modelled as `List Char` (Python character indexing, not byte
positions).  Python dictionaries are modelled as insertion-ordered
association lists.  The HTML document is modelled by the data the code
actually inspects through BeautifulSoup: definition-list entries, table
rows, candidate div/section tags, heading texts and the description
section's text.  BeautifulSoup itself is an external collaborator, so
its tree traversal is abstracted as those query results.
-/

namespace Scrap


set_option maxRecDepth 16000

abbrev Str := List Char

/-- Whitespace set of Python's `str.split()` / `str.strip()`. -/
def pyIsSpace (c : Char) : Bool :=
  decide (c = ' ') || decide (c = '\t') || decide (c = '\n') ||
  decide (c = '\r') || decide (c = '\x0b') || decide (c = '\x0c')

/-- Python `s.strip()`: drop leading and trailing whitespace. -/
def pyStrip (s : Str) : Str :=
  ((s.dropWhile pyIsSpace).reverse.dropWhile pyIsSpace).reverse

/-- Python `s.lower()` (ASCII range; the keywords compared are ASCII). -/
def pyLower (s : Str) : Str := s.map Char.toLower

/-- `listStarts n h`: `n` is a prefix of `h`. -/
def listStarts : Str → Str → Bool
  | [], _ => true
  | _ :: _, [] => false
  | a :: as, b :: bs => decide (a = b) && listStarts as bs

/-- Python `needle in hay` (substring containment). -/
def isSubstr (needle : Str) : Str → Bool
  | [] => needle.isEmpty
  | c :: t => listStarts needle (c :: t) || isSubstr needle t

/-- Split at every character satisfying `p`, keeping empty pieces
(the behaviour of Python `s.split(sep)` for a one-character `sep`,
generalised to a predicate). -/
def splitOnP (p : Char → Bool) : Str → List Str
  | [] => [[]]
  | c :: t =>
    match splitOnP p t with
    | [] => [[]]
    | h :: r => if p c then [] :: h :: r else (c :: h) :: r

/-- Python `s.split(sep)` for a single-character separator. -/
def splitOnChar (sep : Char) (s : Str) : List Str :=
  splitOnP (fun c => decide (c = sep)) s

/-- Python `s.split()`: split on whitespace runs, dropping empties. -/
def pySplitWs (s : Str) : List Str :=
  (splitOnP pyIsSpace s).filter (fun w => !w.isEmpty)

/-- Python `s.rfind(c)`: index of the last occurrence of `c`, if any. -/
def pyRfind (c : Char) : Str → Option Nat
  | [] => none
  | x :: t =>
    match pyRfind c t with
    | some i => some (i + 1)
    | none => if x = c then some 0 else none

/-- Decimal rendering of a page number, for the `?page=N` query string. -/
def natStr (n : Nat) : Str := (Nat.repr n).data

/-- A Python dict with `Str` keys and values, in insertion order. -/
abbrev Dict := List (Str × Str)

/-- Python `d[k] = v`: replace the value at an existing key in place,
otherwise append the new binding at the end. -/
def dictSet : Dict → Str → Str → Dict
  | [], k, v => [(k, v)]
  | p :: t, k, v => if p.1 = k then (k, v) :: t else p :: dictSet t k v

/-- Python `d[k]` / `k in d`: first binding of `k`, if any. -/
def dictGet : Dict → Str → Option Str
  | [], _ => none
  | p :: t, k => if p.1 = k then some p.2 else dictGet t k

/-- Python `d.get(k, default)`. -/
def dictGetD (d : Dict) (k dflt : Str) : Str := (dictGet d k).getD dflt

/-- Python `list(d.keys())`. -/
def dictKeys (d : Dict) : List Str := d.map (fun p => p.1)

-- field keys and configuration (scrap.py lines 14-21, 54-62)

def kPostingDate : Str := "PostingDate".data

def kJobTitle : Str := "JobTitle".data

def kCompanyName : Str := "CompanyName".data

def kLastDate : Str := "LastDate".data

def kLocation : Str := "Location".data

def kExperienceRequired : Str := "ExperienceRequired".data

def kSkillsRequired : Str := "SkillsRequired".data

def kSalary : Str := "Salary".data

def kJobURL : Str := "JobURL".data

def kJobDescriptionSummary : Str := "JobDescriptionSummary".data

def notAvailable : Str := "Not Available".data

/-- The six field keys of the detail-page extraction result. -/
def detailKeys : List Str :=
  [kJobTitle, kLocation, kExperienceRequired, kSkillsRequired, kSalary,
   kJobDescriptionSummary]

/-- The initial `data` dict of `fetch_job_details` (lines 14-21):
every field key present, unresolved fields carrying their sentinel. -/
def initData : Dict :=
  [(kJobTitle, notAvailable), (kLocation, []),
   (kExperienceRequired, notAvailable), (kSkillsRequired, notAvailable),
   (kSalary, []), (kJobDescriptionSummary, notAvailable)]

def locationKeywords : List Str :=
  ["location".data, "place".data, "city".data]

def experienceKeywords : List Str :=
  ["experience".data, "exp".data, "years".data]

def skillsKeywords : List Str :=
  ["skills".data, "skill".data, "requirements".data, "qualifications".data]

def salaryKeywords : List Str :=
  ["salary".data, "ctc".data, "package".data, "compensation".data]

def sectionKeywords : List Str :=
  ["required skills".data, "skill requirements".data]

/-- `any(key in label for key in ks)`. -/
def matchesAny (ks : List Str) (label : Str) : Bool :=
  ks.any (fun k => isSubstr k label)

/-- Skills post-processing (lines 59-61 and 77-79):
`value.replace(bullet, comma).replace(middot, comma).split(comma)`,
strip each piece, drop empties, join with a comma and a space. -/
def processSkillsValue (value : Str) : Str :=
  let s1 := value.map (fun c => if c = '•' then ',' else c)
  let s2 := s1.map (fun c => if c = '·' then ',' else c)
  let skills := ((splitOnChar ',' s2).map pyStrip).filter (fun s => !s.isEmpty)
  List.intercalate (", ".data) skills

/-- The shared `if/elif` keyword chain assigning one field from a
label/value pair (lines 54-63 and 72-81; the two copies are identical). -/
def applyLabelValue (data : Dict) (label value : Str) : Dict :=
  if matchesAny locationKeywords label then dictSet data kLocation value
  else if matchesAny experienceKeywords label then
    dictSet data kExperienceRequired value
  else if matchesAny skillsKeywords label then
    dictSet data kSkillsRequired (processSkillsValue value)
  else if matchesAny salaryKeywords label then dictSet data kSalary value
  else data

/-- A `dt` term of a definition list: its stripped text and the stripped
text of its next `dd` sibling, when one exists (lines 49-53). -/
structure DtEntry where
  dtText : Str
  dd : Option Str

/-- A candidate `div`/`section` tag: its full rendered text (used by the
skills-section predicate) and the stripped texts of its `li`/`p`
descendants (lines 84-90). -/
structure Sect where
  fullText : Str
  items : List Str

/-- One traversal root of the structured-format loop (line 46):
its definition lists, its tables (rows of stripped cell texts, cells
being the `th`/`td` children) and its `div`/`section` tags in document
order. -/
structure Container where
  dls : List (List DtEntry)
  tables : List (List (List Str))
  sections : List Sect

/-- A successfully fetched and parsed detail page, abstracted as the
query results the code reads from the soup: the details container (if
one of the three class lookups succeeds), the text of the first
`h1`/`h2` inside it and in the whole soup, the whole soup as a
traversal root, and the text of the description section found by the
class/content lookup chain of lines 93-111 (that lookup chain touches
no field logic, so it is abstracted as its result). -/
structure DetailDoc where
  detailsContainer : Option Container
  containerTitle : Option Str
  soupTitle : Option Str
  soup : Container
  descText : Option Str

/-- `title_tag = details_container.find(..) or soup.find(..)` (line 41). -/
def titleOf (doc : DetailDoc) : Option Str :=
  match doc.containerTitle with
  | some t => some t
  | none => doc.soupTitle

/-- Line 42-43: assign the title when a heading tag was found. -/
def titleStep (doc : DetailDoc) (data : Dict) : Dict :=
  match titleOf doc with
  | some t => dictSet data kJobTitle t
  | none => data

/-- Lines 49-63: one `dt` of a definition list. -/
def processDt (data : Dict) (e : DtEntry) : Dict :=
  match e.dd with
  | some v => applyLabelValue data (pyLower e.dtText) v
  | none => data

/-- Lines 67-81: one table row; only rows with at least two cells are
considered, the first cell is the label and the second the value. -/
def processRow (data : Dict) (cells : List Str) : Dict :=
  match cells with
  | c0 :: c1 :: _ => applyLabelValue data (pyLower c0) c1
  | _ => data

/-- Line 84-85: the first `div`/`section` whose rendered text contains a
skills-section phrase. -/
def findSkillsSection (sections : List Sect) : Option Sect :=
  sections.find? (fun s => matchesAny sectionKeywords (pyLower s.fullText))

/-- Lines 84-90: the dedicated skills-section heuristic. -/
def processSkillsSection (data : Dict) (c : Container) : Dict :=
  match findSkillsSection c.sections with
  | some s =>
    if s.items.isEmpty then data
    else
      dictSet data kSkillsRequired
        (List.intercalate (", ".data) (s.items.filter (fun t => !t.isEmpty)))
  | none => data

/-- Lines 46-90: the body of `for container in [details_container, soup]`:
definition lists first, then tables, then the skills section. -/
def processContainer (data : Dict) (c : Container) : Dict :=
  let d1 := c.dls.foldl (fun d dl => dl.foldl processDt d) data
  let d2 := c.tables.foldl (fun d t => t.foldl processRow d) d1
  processSkillsSection d2 c

/-- Line 116: `' '.join(description.split())`. -/
def normalizeWs (s : Str) : Str := List.intercalate [' '] (pySplitWs s)

def ellipsis : Str := "...".data

/-- Lines 118-128 applied to a non-empty normalized description. -/
def summaryCore (d : Str) : Str :=
  if 300 < d.length then
    match pyRfind '.' (d.take 300) with
    | some i => d.take (i + 1) ++ ellipsis
    | none =>
      match pyRfind ' ' (d.take 300) with
      | some i => d.take (i + 1) ++ ellipsis
      | none => d.take 300 ++ ellipsis
  else d

/-- Lines 113-128: the description step, given the found description
section's text; the empty normalized description assigns nothing. -/
def descStep (doc : DetailDoc) (data : Dict) : Dict :=
  match doc.descText with
  | some t =>
    let d := normalizeWs t
    if d.isEmpty then data else dictSet data kJobDescriptionSummary (summaryCore d)
  | none => data

/-- Outcome of the detail-page HTTP fetch: either an exception raised by
`requests.get`/`raise_for_status` (caught at line 130) or a parsed page. -/
inductive FetchResult where
  | httpError
  | ok (doc : DetailDoc)

/-- Lines 32-128 on a parsed page: the sentinel dict when no details
container is found, otherwise the title, the two traversal roots and
the description, processed in this order. -/
def fetchCore (doc : DetailDoc) : Dict :=
  match doc.detailsContainer with
  | none => initData
  | some dc =>
    let d1 := titleStep doc initData
    let d2 := processContainer d1 dc
    let d3 := processContainer d2 doc.soup
    descStep doc d3

/-- `fetch_job_details` (lines 12-133), for a run in which no traversal
exception fires (the interrupted runs are modelled below): the sentinel
dict is returned for a falsy URL or an HTTP error, otherwise the page
is processed by `fetchCore`. -/
def fetch_job_details (detailsUrl : Option Str) (fr : FetchResult) : Dict :=
  if detailsUrl = none ∨ detailsUrl = some ([] : Str) then initData
  else
    match fr with
    | .httpError => initData
    | .ok doc => fetchCore doc

/-!
Assignment-trace semantics of the extraction engine.

The body of the `try` block only ever mutates `data` through key
assignments whose key and value are computed from the document alone,
so a run of the engine is equivalent to folding `dictSet` over the
sequence of assignments it performs, in source order.  This is proved
as `fetchCore_eq_applyAssigns` below and is what makes an interrupted
run (a traversal exception caught at line 130) expressible as a prefix
of that sequence.
-/

/-- The field assignment the `if/elif` chain performs for one
label/value pair, if any. -/
def labelAssign (label value : Str) : Option (Str × Str) :=
  if matchesAny locationKeywords label then some (kLocation, value)
  else if matchesAny experienceKeywords label then
    some (kExperienceRequired, value)
  else if matchesAny skillsKeywords label then
    some (kSkillsRequired, processSkillsValue value)
  else if matchesAny salaryKeywords label then some (kSalary, value)
  else none

/-- The assignment performed for one `dt` entry, if any. -/
def entryAssign (e : DtEntry) : Option (Str × Str) :=
  match e.dd with
  | some v => labelAssign (pyLower e.dtText) v
  | none => none

/-- The assignment performed for one table row, if any. -/
def rowAssign (cells : List Str) : Option (Str × Str) :=
  match cells with
  | c0 :: c1 :: _ => labelAssign (pyLower c0) c1
  | _ => none

/-- The assignment performed by the skills-section heuristic, if any. -/
def sectionAssign (c : Container) : Option (Str × Str) :=
  match findSkillsSection c.sections with
  | some s =>
    if s.items.isEmpty then none
    else
      some (kSkillsRequired,
        List.intercalate (", ".data) (s.items.filter (fun t => !t.isEmpty)))
  | none => none

/-- The title assignment, if a heading tag was found. -/
def titleAssign (doc : DetailDoc) : Option (Str × Str) :=
  (titleOf doc).map (fun t => (kJobTitle, t))

/-- The description-summary assignment, if any. -/
def descAssign (doc : DetailDoc) : Option (Str × Str) :=
  match doc.descText with
  | some t =>
    if (normalizeWs t).isEmpty then none
    else some (kJobDescriptionSummary, summaryCore (normalizeWs t))
  | none => none

/-- The assignments one traversal root performs, in source order:
definition lists first, then tables, then the skills section. -/
def containerAssigns (c : Container) : List (Str × Str) :=
  (c.dls.map (fun dl => dl.filterMap entryAssign)).flatten
    ++ (c.tables.map (fun t => t.filterMap rowAssign)).flatten
    ++ (sectionAssign c).toList

/-- All assignments of a fault-free engine run, in source order. -/
def detailAssigns (doc : DetailDoc) : List (Str × Str) :=
  match doc.detailsContainer with
  | none => []
  | some dc =>
    (titleAssign doc).toList ++ containerAssigns dc
      ++ containerAssigns doc.soup ++ (descAssign doc).toList

/-- Fold a sequence of key/value assignments over a dict. -/
def applyAssigns (d : Dict) (ps : List (Str × Str)) : Dict :=
  ps.foldl (fun d p => dictSet d p.1 p.2) d

/-- `fetch_job_details` when a traversal exception fires after the
`k`-th assignment: the `except` clause at lines 130-133 returns `data`
as mutated so far, so the result is the fold of the first `k`
assignments (for a falsy URL or an HTTP fault, nothing was assigned). -/
def fetch_job_details_interrupted (detailsUrl : Option Str)
    (fr : FetchResult) (k : Nat) : Dict :=
  if detailsUrl = none ∨ detailsUrl = some ([] : Str) then initData
  else
    match fr with
    | .httpError => initData
    | .ok doc => applyAssigns initData ((detailAssigns doc).take k)

-- concrete documents used for counterexamples and witnesses

def emptyContainer : Container := ⟨[], [], []⟩

def exUrl : Str := "u".data

def strA : Str := "A".data

def strB : Str := "B".data

def strX : Str := "X".data

def strY : Str := "Y".data

def labelSkills : Str := "Skills".data

def labelExperience : Str := "Experience".data

def labelLocation : Str := "Location".data

/-- A detail page whose details container holds a table row
`["Skills", "X"]` and a div whose text mentions "Required Skills" with a
single list item "Y". -/
def docC2 : DetailDoc :=
  ⟨some ⟨[], [[[labelSkills, strX]]],
     [⟨"Required Skills here".data, [strY]⟩]⟩,
   none, none, emptyContainer, none⟩

/-- A detail page whose details container holds the single table row
`["Experience", ""]` (an empty value). -/
def docC7a : DetailDoc :=
  ⟨some ⟨[], [[[labelExperience, []]]], []⟩, none, none, emptyContainer, none⟩

/-- A detail page whose details container holds a table with two rows
`["Location", "A"]` and `["Location", "B"]`. -/
def docC7b : DetailDoc :=
  ⟨some ⟨[], [[[labelLocation, strA], [labelLocation, strB]]], []⟩,
   none, none, emptyContainer, none⟩

/-!
Listing page parser (`fetch_jobs_from_page`, lines 135-191), the merge
into a job record (lines 176-187) and the pagination driver
(`scrape_all_jobs`, lines 193-204).  The detail-page fetch invoked per
row is abstracted as a function from the detail URL to the extraction
dict it produces.
-/

/-- Lines 176-187: the job record dict, in insertion order.  Title,
dates and company come from the listing row; location, experience,
skills, salary and the summary come from the detail-page dict. -/
def job_data (postingDate jobTitle companyName lastDate detailsUrl : Str)
    (jobDetails : Dict) : Dict :=
  [(kPostingDate, postingDate), (kJobTitle, jobTitle),
   (kCompanyName, companyName), (kLastDate, lastDate),
   (kLocation, dictGetD jobDetails kLocation notAvailable),
   (kExperienceRequired, dictGetD jobDetails kExperienceRequired notAvailable),
   (kSkillsRequired, dictGetD jobDetails kSkillsRequired notAvailable),
   (kSalary, dictGetD jobDetails kSalary notAvailable),
   (kJobURL, detailsUrl),
   (kJobDescriptionSummary,
     dictGetD jobDetails kJobDescriptionSummary notAvailable)]

/-- A listing-table row: its `td` cell texts (stripped) and the `href`
of the first anchor inside the fifth cell, when present (line 167). -/
structure LRow where
  cells : List Str
  cell5Anchor : Option Str

/-- A listing page as the parser sees it: a failed fetch (lines
138-144), a missing `table.table` (147-150), a missing `tbody`
(152-155), or the rows of the table body. -/
inductive ListingPage where
  | fetchError
  | noTable
  | noTbody
  | body (rows : List LRow)

def sitePrefix : Str := "https://infopark.in".data

/-- Lines 170-171: prefix the site origin when the href is relative. -/
def absolutize (href : Str) : Str :=
  match href with
  | '/' :: _ => sitePrefix ++ href
  | _ => href

/-- Lines 158-189: one row of the listing table.  A record is appended
only when the row has at least five cells AND the fifth cell carries an
anchor with an href. -/
def processListingRow (detail : Str → Dict) (jobs : List Dict) (r : LRow) :
    List Dict :=
  if 5 ≤ r.cells.length then
    match r.cell5Anchor with
    | some href =>
      let url := absolutize href
      jobs ++ [job_data (r.cells.getD 0 []) (r.cells.getD 1 [])
        (r.cells.getD 2 []) (r.cells.getD 3 []) url (detail url)]
    | none => jobs
  else jobs

/-- `fetch_jobs_from_page` (lines 135-191). -/
def fetch_jobs_from_page (detail : Str → Dict) : ListingPage → List Dict
  | .fetchError => []
  | .noTable => []
  | .noTbody => []
  | .body rows => rows.foldl (processListingRow detail) []

/-- A row produces a record iff it has at least five cells and a fifth
cell anchor. -/
def qualifies (r : LRow) : Bool :=
  decide (5 ≤ r.cells.length) && r.cell5Anchor.isSome

/-- The record a qualifying row produces. -/
def recordOf (detail : Str → Dict) (r : LRow) : Dict :=
  let url := absolutize (r.cell5Anchor.getD [])
  job_data (r.cells.getD 0 []) (r.cells.getD 1 []) (r.cells.getD 2 [])
    (r.cells.getD 3 []) url (detail url)

/-- Line 197: page 1 is the bare base URL, later pages get `?page=N`. -/
def pageUrl (base : Str) (page : Nat) : Str :=
  if page = 1 then base else base ++ "?page=".data ++ natStr page

/-- Lines 196-203: the pagination loop, with the remaining iteration
count of `range(1, max_pages + 1)` as fuel.  The first component
records the URLs passed to `fetch_jobs_from_page`, in order; the loop
breaks when a fetched page yields no records. -/
def scrapeGo (fetch : Str → List Dict) (base : Str) :
    Nat → Nat → List Str → List Dict → List Str × List Dict
  | 0, _, urls, acc => (urls, acc)
  | fuel + 1, page, urls, acc =>
    let url := pageUrl base page
    let jobs := fetch url
    if jobs.isEmpty then (urls ++ [url], acc)
    else scrapeGo fetch base fuel (page + 1) (urls ++ [url]) (acc ++ jobs)

/-- `scrape_all_jobs` (lines 193-204) instrumented with its fetch
trace. -/
def scrapeRun (fetch : Str → List Dict) (base : Str) (maxPages : Nat) :
    List Str × List Dict :=
  scrapeGo fetch base maxPages 1 [] []

/-- `scrape_all_jobs`: the accumulated records. -/
def scrape_all_jobs (fetch : Str → List Dict) (base : Str) (maxPages : Nat) :
    List Dict :=
  (scrapeRun fetch base maxPages).2

-- further concrete inputs

/-- A detail page whose details container exists and whose heading text
is "B". -/
def docC3 : DetailDoc := ⟨some emptyContainer, some strB, none, emptyContainer, none⟩

def wBase : Str := "b".data

/-- A fetch in which every page yields one record. -/
def cFetch : Str → List Dict := fun _ => [initData]

/-- A fetch in which only the bare base URL yields a record. -/
def wFetch : Str → List Dict := fun u => if u = wBase then [initData] else []

/-!
C8: skills post-processing, compared against a definition following the
spec's wording, and C6: description summary truncation.
-/

/-- The bullet-style separator set named by the spec. -/
def isBulletSep (c : Char) : Bool :=
  decide (c = '•') || decide (c = '·') || decide (c = ',')

/-- The skills post-processing as the spec words it, for comparison
with `processSkillsValue`: split the value directly on the three
bullet-style separators, trim each item, drop empties, rejoin with a
comma and a space. -/
def skillsSpec (value : Str) : Str :=
  List.intercalate (", ".data)
    (((splitOnP isBulletSep value).map pyStrip).filter (fun s => !s.isEmpty))

def exBullets : Str := "Python• Go· SQL".data

def exBulletsOut : Str := "Python, Go, SQL".data

/-- The 450-character description of the spec's truncation example: a
period at position 210 and no period or whitespace elsewhere. -/
def sW : Str := List.replicate 210 'a' ++ '.' :: List.replicate 239 'b'

-- basic dictionary lemmas

theorem dictKeys_cons (p : Str × Str) (t : Dict) :
    dictKeys (p :: t) = p.1 :: dictKeys t := rfl

theorem dictGet_dictSet (d : Dict) (k v k' : Str) :
    dictGet (dictSet d k v) k' = if k = k' then some v else dictGet d k' := by
  induction d with
  | nil => simp [dictSet, dictGet]
  | cons p t ih =>
    by_cases hp : p.1 = k
    · by_cases h : k = k'
      · subst h
        simp [dictSet, dictGet, hp]
      · have hp' : p.1 ≠ k' := by rw [hp]; exact h
        simp [dictSet, dictGet, hp, h, hp']
    · by_cases hq : p.1 = k'
      · have h : k ≠ k' := by intro e; exact hp (by rw [hq, e])
        simp [dictSet, dictGet, hp, hq, h, Ne.symm h]
      · simp [dictSet, dictGet, hp, hq, ih]

theorem dictKeys_dictSet_mem (d : Dict) (k v : Str) (hk : k ∈ dictKeys d) :
    dictKeys (dictSet d k v) = dictKeys d := by
  induction d with
  | nil => simp [dictKeys] at hk
  | cons p t ih =>
    by_cases hp : p.1 = k
    · simp [dictSet, hp, dictKeys_cons]
    · have hk' : k ∈ dictKeys t := by
        rw [dictKeys_cons] at hk
        rcases List.mem_cons.mp hk with h | h
        · exact absurd h.symm hp
        · exact h
      simp [dictSet, hp, dictKeys_cons, ih hk']

-- bridge lemmas

theorem applyAssigns_append (d : Dict) (as bs : List (Str × Str)) :
    applyAssigns d (as ++ bs) = applyAssigns (applyAssigns d as) bs := by
  simp [applyAssigns, List.foldl_append]

theorem applyLabelValue_eq (d : Dict) (l v : Str) :
    applyLabelValue d l v =
      match labelAssign l v with
      | some p => dictSet d p.1 p.2
      | none => d := by
  unfold applyLabelValue labelAssign
  split_ifs <;> rfl

theorem processDt_eq (d : Dict) (e : DtEntry) :
    processDt d e =
      match entryAssign e with
      | some p => dictSet d p.1 p.2
      | none => d := by
  unfold processDt entryAssign
  cases e.dd with
  | none => rfl
  | some v => exact applyLabelValue_eq d (pyLower e.dtText) v

theorem processRow_eq (d : Dict) (cells : List Str) :
    processRow d cells =
      match rowAssign cells with
      | some p => dictSet d p.1 p.2
      | none => d := by
  unfold processRow rowAssign
  match cells with
  | [] => rfl
  | [c] => rfl
  | c0 :: c1 :: rest => exact applyLabelValue_eq d (pyLower c0) c1

theorem processSkillsSection_eq (d : Dict) (c : Container) :
    processSkillsSection d c =
      applyAssigns d (sectionAssign c).toList := by
  unfold processSkillsSection sectionAssign
  cases findSkillsSection c.sections with
  | none => rfl
  | some s =>
    by_cases h : s.items.isEmpty <;> simp [h, applyAssigns, dictSet]

theorem titleStep_eq (doc : DetailDoc) (d : Dict) :
    titleStep doc d = applyAssigns d (titleAssign doc).toList := by
  unfold titleStep titleAssign
  cases titleOf doc with
  | none => rfl
  | some t => rfl

theorem descStep_eq (doc : DetailDoc) (d : Dict) :
    descStep doc d = applyAssigns d (descAssign doc).toList := by
  unfold descStep descAssign
  cases doc.descText with
  | none => rfl
  | some t => by_cases h : (normalizeWs t).isEmpty <;> simp [h, applyAssigns]

theorem foldl_assign_filterMap {α : Type} (f : α → Option (Str × Str))
    (g : Dict → α → Dict)
    (hg : ∀ d x, g d x =
      match f x with
      | some p => dictSet d p.1 p.2
      | none => d)
    (xs : List α) : ∀ d : Dict, xs.foldl g d = applyAssigns d (xs.filterMap f) := by
  induction xs with
  | nil => intro d; rfl
  | cons x t ih =>
    intro d
    rw [List.foldl_cons, hg, ih]
    cases h : f x <;> simp [List.filterMap_cons, h, applyAssigns]

theorem foldl_nested_assign {α : Type} (f : α → Option (Str × Str))
    (g : Dict → α → Dict)
    (hg : ∀ d x, g d x =
      match f x with
      | some p => dictSet d p.1 p.2
      | none => d)
    (xss : List (List α)) : ∀ d : Dict,
      xss.foldl (fun d xs => xs.foldl g d) d =
        applyAssigns d ((xss.map (fun xs => xs.filterMap f)).flatten) := by
  induction xss with
  | nil => intro d; rfl
  | cons xs t ih =>
    intro d
    rw [List.foldl_cons, ih, List.map_cons, List.flatten_cons,
      applyAssigns_append, foldl_assign_filterMap f g hg]

theorem processContainer_eq (d : Dict) (c : Container) :
    processContainer d c = applyAssigns d (containerAssigns c) := by
  simp only [processContainer, containerAssigns]
  rw [foldl_nested_assign entryAssign processDt processDt_eq,
    foldl_nested_assign rowAssign processRow processRow_eq,
    processSkillsSection_eq, applyAssigns_append, applyAssigns_append]

theorem fetchCore_eq_applyAssigns (doc : DetailDoc) :
    fetchCore doc = applyAssigns initData (detailAssigns doc) := by
  cases hdc : doc.detailsContainer with
  | none => simp [fetchCore, detailAssigns, hdc, applyAssigns]
  | some dc =>
    simp only [fetchCore, detailAssigns, hdc]
    rw [titleStep_eq, processContainer_eq, processContainer_eq, descStep_eq,
      applyAssigns_append, applyAssigns_append, applyAssigns_append]

theorem find?_append {α : Type} (p : α → Bool) (l1 l2 : List α) :
    (l1 ++ l2).find? p =
      match l1.find? p with
      | some a => some a
      | none => l2.find? p := by
  induction l1 with
  | nil => rfl
  | cons a t ih =>
    by_cases h : p a <;> simp [List.find?, h, ih]

/-- The value a field holds after a sequence of assignments is the value
of the last assignment to it, and the prior value when there is none:
assignments overwrite unconditionally. -/
theorem dictGet_applyAssigns (ps : List (Str × Str)) : ∀ (d : Dict) (k : Str),
    dictGet (applyAssigns d ps) k =
      match ps.reverse.find? (fun p => decide (p.1 = k)) with
      | some p => some p.2
      | none => dictGet d k := by
  induction ps with
  | nil => intro d k; rfl
  | cons p t ih =>
    intro d k
    have step : applyAssigns d (p :: t) = applyAssigns (dictSet d p.1 p.2) t := rfl
    rw [step, ih, List.reverse_cons, find?_append]
    cases ht : t.reverse.find? (fun q => decide (q.1 = k)) with
    | some q => rfl
    | none =>
      by_cases h : p.1 = k <;>
        simp [List.find?, h, dictGet_dictSet]

theorem dictKeys_applyAssigns (ps : List (Str × Str)) : ∀ d : Dict,
    (∀ p ∈ ps, p.1 ∈ dictKeys d) → dictKeys (applyAssigns d ps) = dictKeys d := by
  induction ps with
  | nil => intro d _; rfl
  | cons p t ih =>
    intro d hmem
    have hp : p.1 ∈ dictKeys d := hmem p (List.mem_cons_self p t)
    have hkeys : dictKeys (dictSet d p.1 p.2) = dictKeys d :=
      dictKeys_dictSet_mem d p.1 p.2 hp
    have step : applyAssigns d (p :: t) = applyAssigns (dictSet d p.1 p.2) t := rfl
    rw [step, ih (dictSet d p.1 p.2)
      (fun q hq => hkeys ▸ hmem q (List.mem_cons_of_mem p hq)), hkeys]

-- every assignment of the engine targets one of the six field keys

theorem labelAssign_key (l v : Str) (p : Str × Str)
    (h : labelAssign l v = some p) : p.1 ∈ detailKeys := by
  unfold labelAssign at h
  split_ifs at h <;> injection h with h' <;> rw [← h'] <;> simp [detailKeys]

theorem entryAssign_key (e : DtEntry) (p : Str × Str)
    (h : entryAssign e = some p) : p.1 ∈ detailKeys := by
  unfold entryAssign at h
  cases he : e.dd with
  | none => rw [he] at h; exact absurd h (by simp)
  | some v => rw [he] at h; exact labelAssign_key _ _ _ h

theorem rowAssign_key (cells : List Str) (p : Str × Str)
    (h : rowAssign cells = some p) : p.1 ∈ detailKeys := by
  unfold rowAssign at h
  match cells, h with
  | c0 :: c1 :: rest, h => exact labelAssign_key _ _ _ h

theorem containerAssigns_key (c : Container) (p : Str × Str)
    (h : p ∈ containerAssigns c) : p.1 ∈ detailKeys := by
  unfold containerAssigns at h
  rcases List.mem_append.mp h with h | h
  · rcases List.mem_append.mp h with h | h
    · rcases List.mem_flatten.mp h with ⟨l, hl, hp⟩
      rcases List.mem_map.mp hl with ⟨dl, _, rfl⟩
      rcases List.mem_filterMap.mp hp with ⟨e, _, he⟩
      exact entryAssign_key e p he
    · rcases List.mem_flatten.mp h with ⟨l, hl, hp⟩
      rcases List.mem_map.mp hl with ⟨t, _, rfl⟩
      rcases List.mem_filterMap.mp hp with ⟨cells, _, hc⟩
      exact rowAssign_key cells p hc
  · unfold sectionAssign at h
    split at h
    · split at h
      · simp at h
      · simp at h
        subst h
        simp [detailKeys]
    · simp at h

theorem detailAssigns_key (doc : DetailDoc) (p : Str × Str)
    (h : p ∈ detailAssigns doc) : p.1 ∈ detailKeys := by
  unfold detailAssigns at h
  split at h
  · simp at h
  · rcases List.mem_append.mp h with h | h
    · rcases List.mem_append.mp h with h | h
      · rcases List.mem_append.mp h with h | h
        · unfold titleAssign at h
          cases ht : titleOf doc with
          | none => rw [ht] at h; simp at h
          | some t =>
            rw [ht] at h
            simp at h
            subst h
            simp [detailKeys]
        · exact containerAssigns_key _ p h
      · exact containerAssigns_key _ p h
    · unfold descAssign at h
      split at h
      · split at h
        · simp at h
        · simp at h
          subst h
          simp [detailKeys]
      · simp at h

theorem dictKeys_initData : dictKeys initData = detailKeys := rfl

/-- C1: for every input document — malformed, empty, or failing to fetch
— and the configured field set, `fetch_job_details` returns a dict whose
keys are exactly the six configured field keys (JobTitle, Location,
ExperienceRequired, SkillsRequired, Salary, JobDescriptionSummary), no
more and no fewer; unresolved fields keep the sentinel value they were
initialised with rather than being omitted. -/
theorem c1_extraction_keys_total (url : Option Str) (fr : FetchResult) :
    dictKeys (fetch_job_details url fr) = detailKeys := by
  unfold fetch_job_details
  split
  · rfl
  · cases fr with
    | httpError => rfl
    | ok doc =>
      show dictKeys (fetchCore doc) = detailKeys
      rw [fetchCore_eq_applyAssigns,
        dictKeys_applyAssigns (detailAssigns doc) initData
          (fun p hp => by rw [dictKeys_initData]; exact detailAssigns_key doc p hp),
        dictKeys_initData]

/-- C2 is false on the code: the claim says the cascade runs tabular
rows before the container/section heuristics and that a value found by
an earlier stage is never overwritten by a later stage.  On `docC2` the
tabular stage matches the row `["Skills", "X"]` (third conjunct), yet
the final SkillsRequired value is `"Y"`, written afterwards by the
skills-section heuristic, which overwrites unconditionally. -/
theorem c2_counterexample :
    dictGet (fetch_job_details (some exUrl) (.ok docC2)) kSkillsRequired
        = some strY ∧
      strY ≠ strX ∧
      rowAssign [labelSkills, strX] = some (kSkillsRequired, strX) := by
  refine ⟨by decide, by decide, by decide⟩

/-- C2 (amended): for a fetched detail page the engine attempts, for
each traversal root in order (the details container, then the whole
document), the stages definition lists, then tables, then the
skills-section heuristic — there is no loose-adjacency stage — and each
match assigns its field unconditionally, so the LAST assignment in that
order determines a field's value (earlier values are overwritten, and
no "already resolved" check exists); fields never assigned keep their
sentinel.  `detailAssigns` lists the assignments in exactly that source
order, and the result of every field lookup is the last assignment to
it, or the sentinel entry of the initial dict. -/
theorem c2_amended_cascade (u : Str) (doc : DetailDoc) (k : Str) (hu : u ≠ []) :
    dictGet (fetch_job_details (some u) (.ok doc)) k =
      match (detailAssigns doc).reverse.find? (fun p => decide (p.1 = k)) with
      | some p => some p.2
      | none => dictGet initData k := by
  have hcond : ¬((some u : Option Str) = none ∨ (some u : Option Str) = some ([] : Str)) := by
    simp [hu]
  have hfjd : fetch_job_details (some u) (.ok doc) = fetchCore doc := by
    unfold fetch_job_details
    rw [if_neg hcond]
  rw [hfjd, fetchCore_eq_applyAssigns, dictGet_applyAssigns]

/-- Witness for C2 (amended) at the concrete page `docC2`. -/
theorem c2_witness :
    dictGet (fetch_job_details (some exUrl) (.ok docC2)) kLocation =
      match (detailAssigns docC2).reverse.find? (fun p => decide (p.1 = kLocation)) with
      | some p => some p.2
      | none => dictGet initData kLocation :=
  c2_amended_cascade exUrl docC2 kLocation (by decide)

/-- C5: the engine never raises to its caller: a traversal fault at any
point `k` of the processing is caught and the engine returns the dict
as mutated so far — it still carries exactly the configured field keys
(first conjunct), a fault before any assignment degrades to the
all-sentinel result (second conjunct), and a fault after the last
assignment returns exactly the fault-free result, so interrupted runs
are prefixes of the full run (third conjunct). -/
theorem c5_engine_never_raises :
    (∀ (url : Option Str) (fr : FetchResult) (k : Nat),
      dictKeys (fetch_job_details_interrupted url fr k) = detailKeys) ∧
    (∀ (url : Option Str) (fr : FetchResult),
      fetch_job_details_interrupted url fr 0 = initData) ∧
    (∀ (u : Str) (doc : DetailDoc), u ≠ [] →
      fetch_job_details_interrupted (some u) (.ok doc)
          (detailAssigns doc).length =
        fetch_job_details (some u) (.ok doc)) := by
  refine ⟨?_, ?_, ?_⟩
  · intro url fr k
    unfold fetch_job_details_interrupted
    split
    · rfl
    · cases fr with
      | httpError => rfl
      | ok doc =>
        rw [dictKeys_applyAssigns ((detailAssigns doc).take k) initData
          (fun p hp => by
            rw [dictKeys_initData]
            exact detailAssigns_key doc p (List.take_subset k _ hp)),
          dictKeys_initData]
  · intro url fr
    unfold fetch_job_details_interrupted
    split
    · rfl
    · cases fr with
      | httpError => rfl
      | ok doc => rfl
  · intro u doc hu
    have hcond : ¬((some u : Option Str) = none ∨ (some u : Option Str) = some ([] : Str)) := by
      simp [hu]
    unfold fetch_job_details_interrupted fetch_job_details
    rw [if_neg hcond, if_neg hcond]
    show applyAssigns initData ((detailAssigns doc).take (detailAssigns doc).length)
      = fetchCore doc
    rw [List.take_length, fetchCore_eq_applyAssigns]

/-- Witness for C5 at the concrete page `docC7a`. -/
theorem c5_witness :
    fetch_job_details_interrupted (some exUrl) (.ok docC7a)
        (detailAssigns docC7a).length =
      fetch_job_details (some exUrl) (.ok docC7a) :=
  c5_engine_never_raises.2.2 exUrl docC7a (by decide)

/-- C7 is false on the code: the tabular stage neither rejects empty
values nor stops at the first non-empty match.  On `docC7a` the row
`["Experience", ""]` assigns the empty string over the sentinel (the
claim says it would be rejected), and on `docC7b` the second of two
matching rows wins (the claim says the first non-empty match `"A"`
would win). -/
theorem c7_counterexample :
    dictGet (fetch_job_details (some exUrl) (.ok docC7a)) kExperienceRequired
        = some ([] : Str) ∧
      ([] : Str) ≠ notAvailable ∧
      dictGet (fetch_job_details (some exUrl) (.ok docC7b)) kLocation
        = some strB ∧
      strB ≠ strA := by
  refine ⟨by decide, by decide, by decide, by decide⟩

/-- C7 (amended): in the tabular stage, every row with two or more cells
whose first cell's lowercased text contains a keyword assigns the second
cell's text unconditionally — empty values are accepted (second
conjunct), the scan does not stop at a match, and the LAST matching row
determines the value (first conjunct: a fold of the rows equals the
last matching assignment, with the prior dict consulted only when no
row matches). -/
theorem c7_amended_tablescan :
    (∀ (rows : List (List Str)) (d : Dict) (k : Str),
      dictGet (rows.foldl processRow d) k =
        match (rows.filterMap rowAssign).reverse.find?
            (fun p => decide (p.1 = k)) with
        | some p => some p.2
        | none => dictGet d k) ∧
    rowAssign [labelExperience, []] = some (kExperienceRequired, []) := by
  constructor
  · intro rows d k
    rw [foldl_assign_filterMap rowAssign processRow processRow_eq,
      dictGet_applyAssigns]
  · decide

-- listing parser lemmas

theorem foldl_processListingRow (detail : Str → Dict) (rows : List LRow) :
    ∀ acc : List Dict,
      rows.foldl (processListingRow detail) acc =
        acc ++ (rows.filter qualifies).map (recordOf detail) := by
  induction rows with
  | nil => intro acc; simp
  | cons r t ih =>
    intro acc
    rw [List.foldl_cons, ih]
    by_cases h5 : 5 ≤ r.cells.length
    · cases ha : r.cell5Anchor with
      | some href =>
        have hq : qualifies r = true := by simp [qualifies, h5, ha]
        simp [processListingRow, h5, ha, List.filter_cons, hq, recordOf]
      | none =>
        have hq : qualifies r = false := by simp [qualifies, ha]
        simp [processListingRow, h5, ha, List.filter_cons, hq]
    · have hq : qualifies r = false := by simp [qualifies, h5]
      simp [processListingRow, h5, List.filter_cons, hq]

/-- C3 is false on the code: the merged record's JobTitle is the
listing row's title, not the detail page's.  On `docC3` the detail
extraction resolves the title to "B" (first conjunct), yet merging it
with a row whose title cell is "A" yields JobTitle "A" (second
conjunct), so the detail-page value does not take precedence for the
title. -/
theorem c3_counterexample :
    dictGet (fetch_job_details (some exUrl) (.ok docC3)) kJobTitle
        = some strB ∧
      dictGet (job_data ([] : Str) strA ([] : Str) ([] : Str) exUrl
          (fetch_job_details (some exUrl) (.ok docC3))) kJobTitle
        = some strA ∧
      strA ≠ strB := by
  refine ⟨by decide, by decide, by decide⟩

/-- C3 (amended): in the merged record, Location, ExperienceRequired,
SkillsRequired, Salary and JobDescriptionSummary are taken from the
detail-page extraction dict (with "Not Available" as the fallback
default of `.get`), while JobTitle is taken from the listing row — the
detail-page title is not used in the merge. -/
theorem c3_amended_merge (p t c l u : Str) (jd : Dict) :
    dictGet (job_data p t c l u jd) kJobTitle = some t ∧
    dictGet (job_data p t c l u jd) kLocation
      = some (dictGetD jd kLocation notAvailable) ∧
    dictGet (job_data p t c l u jd) kExperienceRequired
      = some (dictGetD jd kExperienceRequired notAvailable) ∧
    dictGet (job_data p t c l u jd) kSkillsRequired
      = some (dictGetD jd kSkillsRequired notAvailable) ∧
    dictGet (job_data p t c l u jd) kSalary
      = some (dictGetD jd kSalary notAvailable) ∧
    dictGet (job_data p t c l u jd) kJobDescriptionSummary
      = some (dictGetD jd kJobDescriptionSummary notAvailable) := by
  refine ⟨rfl, rfl, rfl, rfl, rfl, rfl⟩

/-- C9: the listing page parser skips, without erroring, every row with
fewer than five cells (adding them changes nothing: filtering the rows
to those with at least five cells gives the same output), and a page
with no table body — or no table, or a failed fetch — yields the empty
sequence. -/
theorem c9_listing_skips_and_empty :
    (∀ detail : Str → Dict,
      fetch_jobs_from_page detail .noTbody = [] ∧
      fetch_jobs_from_page detail .noTable = [] ∧
      fetch_jobs_from_page detail .fetchError = []) ∧
    (∀ (detail : Str → Dict) (rows : List LRow),
      fetch_jobs_from_page detail (.body rows) =
        fetch_jobs_from_page detail
          (.body (rows.filter (fun r => decide (5 ≤ r.cells.length))))) := by
  constructor
  · intro detail
    exact ⟨rfl, rfl, rfl⟩
  · intro detail rows
    have h1 : fetch_jobs_from_page detail (.body rows)
        = [] ++ (rows.filter qualifies).map (recordOf detail) :=
      foldl_processListingRow detail rows []
    have h2 : fetch_jobs_from_page detail
          (.body (rows.filter (fun r => decide (5 ≤ r.cells.length))))
        = [] ++ (((rows.filter (fun r => decide (5 ≤ r.cells.length)))).filter
            qualifies).map (recordOf detail) :=
      foldl_processListingRow detail _ []
    have hfil : rows.filter qualifies =
        rows.filter (fun a => qualifies a && decide (5 ≤ a.cells.length)) := by
      apply List.filter_congr
      intro r _
      by_cases h5 : 5 ≤ r.cells.length
      · simp [qualifies, h5]
      · simp [qualifies, h5]
    rw [h1, h2, List.filter_filter, ← hfil]

/-- C10: a job record is produced exactly for the rows with at least
five cells and an anchored fifth cell — the output is the map of the
record constructor over precisely those rows, so rows lacking a detail
link are dropped and produce no record — and every record carries a
JobURL equal to the row's href, absolutized by prefixing the site
origin when the href starts with a slash. -/
theorem c10_record_link_invariant :
    (∀ (detail : Str → Dict) (rows : List LRow),
      fetch_jobs_from_page detail (.body rows) =
        (rows.filter qualifies).map (recordOf detail)) ∧
    (∀ (detail : Str → Dict) (r : LRow),
      dictGet (recordOf detail r) kJobURL =
        some (absolutize (r.cell5Anchor.getD []))) := by
  constructor
  · intro detail rows
    show rows.foldl (processListingRow detail) [] = _
    rw [foldl_processListingRow]
    rfl
  · intro detail r
    rfl

-- pagination lemmas

theorem scrapeGo_stop_at_empty (fetch : Str → List Dict) (base : Str) :
    ∀ (fuel page j : Nat) (urls : List Str) (acc : List Dict),
      page ≤ j → j < page + fuel →
      fetch (pageUrl base j) = [] →
      (∀ i, page ≤ i → i < j → fetch (pageUrl base i) ≠ []) →
      (scrapeGo fetch base fuel page urls acc).1 =
        urls ++ (List.range' page (j + 1 - page)).map (pageUrl base) := by
  intro fuel
  induction fuel with
  | zero =>
    intro page j urls acc h1 h2 _ _
    exfalso; omega
  | succ fuel ih =>
    intro page j urls acc h1 h2 hempty hnon
    by_cases hj : j = page
    · subst hj
      have hone : j + 1 - j = 1 := by omega
      simp only [scrapeGo]
      rw [hempty, hone]
      simp [List.range']
    · have hpage : page < j := lt_of_le_of_ne h1 (Ne.symm hj)
      have hne : fetch (pageUrl base page) ≠ [] := hnon page le_rfl hpage
      have hbool : (fetch (pageUrl base page)).isEmpty = false := by
        cases hc : fetch (pageUrl base page) with
        | nil => exact absurd hc hne
        | cons a l => rfl
      simp only [scrapeGo]
      rw [hbool]
      simp only [Bool.false_eq_true, if_false]
      rw [ih (page + 1) j (urls ++ [pageUrl base page]) (acc ++ fetch (pageUrl base page))
        (by omega) (by omega) hempty
        (fun i hi1 hi2 => hnon i (by omega) hi2)]
      have e1 : j + 1 - (page + 1) = j - page := by omega
      have e2 : j + 1 - page = (j - page) + 1 := by omega
      have e3 : List.range' page ((j - page) + 1) =
          page :: List.range' (page + 1) (j - page) := List.range'_succ page (j - page) 1
      rw [e1, e2, e3, List.map_cons, List.append_assoc]
      rfl

theorem scrapeGo_all_nonempty (fetch : Str → List Dict) (base : Str) :
    ∀ (fuel page : Nat) (urls : List Str) (acc : List Dict),
      (∀ i, page ≤ i → i < page + fuel → fetch (pageUrl base i) ≠ []) →
      (scrapeGo fetch base fuel page urls acc).1 =
        urls ++ (List.range' page fuel).map (pageUrl base) := by
  intro fuel
  induction fuel with
  | zero =>
    intro page urls acc _
    simp [scrapeGo]
  | succ fuel ih =>
    intro page urls acc hnon
    have hne : fetch (pageUrl base page) ≠ [] := hnon page le_rfl (by omega)
    have hbool : (fetch (pageUrl base page)).isEmpty = false := by
      cases hc : fetch (pageUrl base page) with
      | nil => exact absurd hc hne
      | cons a l => rfl
    simp only [scrapeGo]
    rw [hbool]
    simp only [Bool.false_eq_true, if_false]
    rw [ih (page + 1) (urls ++ [pageUrl base page]) (acc ++ fetch (pageUrl base page))
      (fun i hi1 hi2 => hnon i (by omega) (by omega))]
    rw [List.range'_succ, List.map_cons, List.append_assoc]
    rfl

/-- C4 is false on the code: the driver also stops at the `max_pages`
bound without an empty sequence ever being returned.  With a fetch
yielding a record on every page, the complete fetch trace for
`max_pages = 3` is exactly pages 1-3 — all of which returned non-empty
sequences (and page 4, which the claim says would be fetched next,
would also have been non-empty). -/
theorem c4_counterexample :
    (scrapeRun cFetch wBase 3).1 =
        [pageUrl wBase 1, pageUrl wBase 2, pageUrl wBase 3] ∧
      cFetch (pageUrl wBase 1) ≠ [] ∧ cFetch (pageUrl wBase 2) ≠ [] ∧
      cFetch (pageUrl wBase 3) ≠ [] ∧ cFetch (pageUrl wBase 4) ≠ [] := by
  refine ⟨by decide, by decide, by decide, by decide, by decide⟩

/-- C4 (amended): the driver fetches page 1 as the bare base URL and
page `n ≥ 2` via the `?page=n` query parameter; it stops at the first
page whose record sequence is empty (first conjunct: the fetch trace is
exactly pages 1 through that page), and otherwise stops after
`max_pages` pages even though no empty sequence was returned (second
conjunct). -/
theorem c4_amended_pagination :
    (∀ (fetch : Str → List Dict) (base : Str) (maxPages j : Nat),
      1 ≤ j → j ≤ maxPages → fetch (pageUrl base j) = [] →
      (∀ i, 1 ≤ i → i < j → fetch (pageUrl base i) ≠ []) →
      (scrapeRun fetch base maxPages).1 =
        (List.range' 1 j).map (pageUrl base)) ∧
    (∀ (fetch : Str → List Dict) (base : Str) (maxPages : Nat),
      (∀ i, 1 ≤ i → i ≤ maxPages → fetch (pageUrl base i) ≠ []) →
      (scrapeRun fetch base maxPages).1 =
        (List.range' 1 maxPages).map (pageUrl base)) := by
  constructor
  · intro fetch base maxPages j h1 h2 hempty hnon
    have := scrapeGo_stop_at_empty fetch base maxPages 1 j [] []
      h1 (by omega) hempty hnon
    rw [scrapeRun, this]
    have e : j + 1 - 1 = j := by omega
    rw [e]
    rfl
  · intro fetch base maxPages hnon
    have := scrapeGo_all_nonempty fetch base maxPages 1 [] []
      (fun i hi1 hi2 => hnon i hi1 (by omega))
    rw [scrapeRun, this]
    rfl

/-- Witness for C4 (amended): with a fetch yielding records only for
the bare base URL, page 2 is the first empty page and the trace is
exactly pages 1 and 2. -/
theorem c4_witness :
    (scrapeRun wFetch wBase 3).1 = (List.range' 1 2).map (pageUrl wBase) :=
  c4_amended_pagination.1 wFetch wBase 3 2 (by decide) (by decide) (by decide)
    (fun i hi1 hi2 => by
      have he : i = 1 := by omega
      subst he
      decide)

theorem splitOnP_ne_nil (p : Char → Bool) (s : Str) : splitOnP p s ≠ [] := by
  cases s with
  | nil => simp [splitOnP]
  | cons c t =>
    simp only [splitOnP]
    cases h : splitOnP p t with
    | nil => simp
    | cons hd r => by_cases hc : p c <;> simp [hc]

theorem bulletComma (c : Char) :
    decide ((if (if c = '•' then ',' else c) = '·' then ','
      else (if c = '•' then ',' else c)) = ',') = isBulletSep c := by
  by_cases h1 : c = '•'
  · subst h1; decide
  · by_cases h2 : c = '·'
    · subst h2; decide
    · by_cases h3 : c = ','
      · subst h3; decide
      · simp [h1, h2, h3, isBulletSep]

theorem bulletKeep (c : Char) (h : isBulletSep c = false) :
    (if (if c = '•' then ',' else c) = '·' then ','
      else (if c = '•' then ',' else c)) = c := by
  have h1 : ¬c = '•' := by intro e; rw [e] at h; exact absurd h (by decide)
  have h2 : ¬c = '·' := by intro e; rw [e] at h; exact absurd h (by decide)
  simp [h1, h2]

/-- Replacing both bullet characters by commas and then splitting on
commas is the same as splitting on all three separators at once. -/
theorem split_replace_eq (value : Str) :
    splitOnChar ','
        ((value.map (fun c => if c = '•' then ',' else c)).map
          (fun c => if c = '·' then ',' else c))
      = splitOnP isBulletSep value := by
  induction value with
  | nil => rfl
  | cons c t ih =>
    cases hsplit : splitOnP isBulletSep t with
    | nil => exact absurd hsplit (splitOnP_ne_nil _ _)
    | cons hd r =>
      have hrec : splitOnP (fun x => decide (x = ','))
          ((t.map (fun c => if c = '•' then ',' else c)).map
            (fun c => if c = '·' then ',' else c)) = hd :: r := by
        have h := ih
        simp only [splitOnChar] at h
        rw [h, hsplit]
      show splitOnP (fun x => decide (x = ',')) _ = _
      simp only [List.map_cons, splitOnP, hrec, hsplit]
      by_cases hb : isBulletSep c
      · rw [bulletComma c, if_pos hb, if_pos hb]
      · have hb' : isBulletSep c = false := by simpa using hb
        rw [bulletComma c, if_neg hb, if_neg hb, bulletKeep c hb']

/-- C8: the skills post-processing splits the extracted value on the
bullet-style separators (bullet, middle dot, comma), trims each item,
drops empty items and rejoins with a comma and a space — equal to the
spec-worded direct multi-separator split — and on the spec's example
"Python• Go· SQL" it yields "Python, Go, SQL". -/
theorem c8_skills_postprocessing :
    (∀ value : Str, processSkillsValue value = skillsSpec value) ∧
    processSkillsValue exBullets = exBulletsOut := by
  constructor
  · intro value
    simp only [processSkillsValue, skillsSpec]
    rw [split_replace_eq]
  · decide

-- rfind lemmas for the truncation proof

theorem pyRfind_none_of_not_mem (c : Char) (xs : Str) (h : c ∉ xs) :
    pyRfind c xs = none := by
  induction xs with
  | nil => rfl
  | cons x t ih =>
    have hx : ¬x = c := fun e => h (e ▸ List.mem_cons_self x t)
    have ht : c ∉ t := fun hm => h (List.mem_cons_of_mem x hm)
    simp only [pyRfind, ih ht]
    rw [if_neg hx]

theorem pyRfind_some (c : Char) (xs : Str) : ∀ i : Nat, xs[i]? = some c →
    (∀ j, i < j → xs[j]? ≠ some c) → pyRfind c xs = some i := by
  induction xs with
  | nil =>
    intro i h _
    simp at h
  | cons x t ih =>
    intro i hc hafter
    cases i with
    | zero =>
      have hx : x = c := by simpa using hc
      have hnone : pyRfind c t = none := by
        apply pyRfind_none_of_not_mem
        intro hm
        rcases List.mem_iff_getElem?.mp hm with ⟨n, hn⟩
        exact hafter (n + 1) (Nat.succ_pos n) (by simpa using hn)
      simp only [pyRfind, hnone]
      rw [if_pos hx]
    | succ i =>
      have hc' : t[i]? = some c := by simpa using hc
      have hafter' : ∀ j, i < j → t[j]? ≠ some c := by
        intro j hj
        have h := hafter (j + 1) (by omega)
        simpa using h
      simp only [pyRfind, ih i hc' hafter']

theorem pyRfind_take_none (c : Char) (d : Str) (n : Nat)
    (h : ∀ j, j < n → d[j]? ≠ some c) : pyRfind c (d.take n) = none := by
  apply pyRfind_none_of_not_mem
  intro hm
  rcases List.mem_iff_getElem?.mp hm with ⟨m, hmn⟩
  by_cases hlt : m < n
  · rw [List.getElem?_take_of_lt hlt] at hmn
    exact h m hlt hmn
  · rw [List.getElem?_take_eq_none (Nat.le_of_not_lt hlt)] at hmn
    simp at hmn

theorem pyRfind_take_some (c : Char) (d : Str) (n i : Nat) (hi : i < n)
    (hc : d[i]? = some c) (hlast : ∀ j, j < n → i < j → d[j]? ≠ some c) :
    pyRfind c (d.take n) = some i := by
  apply pyRfind_some
  · rw [List.getElem?_take_of_lt hi]
    exact hc
  · intro j hj
    by_cases hjn : j < n
    · rw [List.getElem?_take_of_lt hjn]
      exact hlast j hjn hj
    · rw [List.getElem?_take_eq_none (Nat.le_of_not_lt hjn)]
      simp

/-- C6: the summary post-processing acts on the whitespace-normalized
description: a normalized description within the 300-character cap is
kept whole; one exceeding the cap is truncated through its last period
within the cap with an ellipsis appended (total length `i + 4` when the
period sits at position `i`); with no period in the cap, through the
last space within the cap; with neither, hard-truncated at the cap. -/
theorem c6_summary_truncation :
    (∀ s : Str, (normalizeWs s).length ≤ 300 →
      summaryCore (normalizeWs s) = normalizeWs s) ∧
    (∀ (s : Str) (i : Nat), 300 < (normalizeWs s).length →
      (normalizeWs s)[i]? = some '.' → i < 300 →
      (∀ j, j < 300 → i < j → (normalizeWs s)[j]? ≠ some '.') →
      summaryCore (normalizeWs s) = (normalizeWs s).take (i + 1) ++ ellipsis ∧
      (summaryCore (normalizeWs s)).length = i + 4) ∧
    (∀ (s : Str) (i : Nat), 300 < (normalizeWs s).length →
      (∀ j, j < 300 → (normalizeWs s)[j]? ≠ some '.') →
      (normalizeWs s)[i]? = some ' ' → i < 300 →
      (∀ j, j < 300 → i < j → (normalizeWs s)[j]? ≠ some ' ') →
      summaryCore (normalizeWs s) = (normalizeWs s).take (i + 1) ++ ellipsis) ∧
    (∀ s : Str, 300 < (normalizeWs s).length →
      (∀ j, j < 300 → (normalizeWs s)[j]? ≠ some '.') →
      (∀ j, j < 300 → (normalizeWs s)[j]? ≠ some ' ') →
      summaryCore (normalizeWs s) = (normalizeWs s).take 300 ++ ellipsis) := by
  refine ⟨?_, ?_, ?_, ?_⟩
  · intro s hle
    unfold summaryCore
    rw [if_neg (by omega)]
  · intro s i hlen hdot hi hlast
    have hfind : pyRfind '.' ((normalizeWs s).take 300) = some i :=
      pyRfind_take_some '.' (normalizeWs s) 300 i hi hdot hlast
    have heq : summaryCore (normalizeWs s)
        = (normalizeWs s).take (i + 1) ++ ellipsis := by
      unfold summaryCore
      rw [if_pos hlen, hfind]
    refine ⟨heq, ?_⟩
    rw [heq, List.length_append, List.length_take]
    have hmin : min (i + 1) (normalizeWs s).length = i + 1 := by omega
    rw [hmin]
    rfl
  · intro s i hlen hnodot hsp hi hlast
    have hnone : pyRfind '.' ((normalizeWs s).take 300) = none :=
      pyRfind_take_none '.' (normalizeWs s) 300 hnodot
    have hfind : pyRfind ' ' ((normalizeWs s).take 300) = some i :=
      pyRfind_take_some ' ' (normalizeWs s) 300 i hi hsp hlast
    unfold summaryCore
    rw [if_pos hlen, hnone, hfind]
  · intro s hlen hnodot hnosp
    have hd : pyRfind '.' ((normalizeWs s).take 300) = none :=
      pyRfind_take_none '.' (normalizeWs s) 300 hnodot
    have hs : pyRfind ' ' ((normalizeWs s).take 300) = none :=
      pyRfind_take_none ' ' (normalizeWs s) 300 hnosp
    unfold summaryCore
    rw [if_pos hlen, hd, hs]

/-- Witness for C6 at the spec's concrete example: a 450-character
description with its last in-cap period at position 210 truncates to
the text through that period plus the ellipsis — total length 214. -/
theorem c6_witness :
    summaryCore (normalizeWs sW) = (normalizeWs sW).take 211 ++ ellipsis ∧
    (summaryCore (normalizeWs sW)).length = 214 :=
  c6_summary_truncation.2.1 sW 210 (by decide) (by decide) (by decide)
    (by decide)

end Scrap
